import Mathlib

/-!
Verification of the download-resolution pipeline of `dw.py`.

The Python source is shallowly embedded: pure helper functions become Lean
functions on `Nat`/`String`/`List Char`, file contents become `List Nat`
(byte values), the fallback loop of `handle_download` becomes a recursive
function returning the trace of attempted selectors, and the
`tempfile.TemporaryDirectory` context manager becomes an explicit
state-passing combinator on a filesystem record.  Fallible operations
(`math.log` on a negative number, the `size_names[i]` list lookup) are
modelled with `Option`.

Character-level operations (`str.lower`, the `re` character classes `\w`
and `\s`, `str.strip`) are modelled at ASCII precision; the Unicode tables
of CPython's `re` module are outside the scope of this development.
-/

namespace Dw

/-- The 50 MiB Telegram limit, `MAX_FILE_SIZE` in the source. -/
def MAX_FILE_SIZE : Nat := 50 * 1024 * 1024

/-- The 45 MiB chunk size, `CHUNK_SIZE` in the source. -/
def CHUNK_SIZE : Nat := 45 * 1024 * 1024

/-- The delivery shape decided by `handle_download` after a download:
one unit (`answer_audio`/`answer_video`), or a split sequence of
`answer_document` chunks. -/
inductive DeliveryPlan where
  | single : DeliveryPlan
  | chunked : DeliveryPlan
deriving DecidableEq, Repr

/-- The size branch of `handle_download`:
`if file_size <= MAX_FILE_SIZE: ... else: # split and send`. -/
def delivery_plan (file_size : Nat) : DeliveryPlan :=
  if file_size ≤ MAX_FILE_SIZE then .single else .chunked

/-- The quality-to-selector mapping of `handle_download`
(`if quality == "high": ... elif ... else: format_selector = "best"`). -/
def format_selector_for (quality : String) : String :=
  if quality = "high" then "bestvideo[height<=1080]+bestaudio/best[height<=1080]"
  else if quality = "standard" then "bestvideo[height<=720]+bestaudio/best[height<=720]"
  else if quality = "audio" then "bestaudio"
  else "best"

/-- The list `formats_to_try = [format_selector, "best", "worst"]` built by
`handle_download`. -/
def formats_to_try (format_selector : String) : List String :=
  [format_selector, "best", "worst"]

/-- The fallback loop of `handle_download`:
`for fmt in formats_to_try: try: ...download...; success = True; break
except: continue`.  `fetch i f` is the outcome of the download attempt at
loop position `i` with selector `f`.  Returns the ordered trace of
attempted selectors together with the final `success` flag. -/
def attempt_fallback (fetch : Nat → String → Bool) : Nat → List String → List String × Bool
  | _, [] => ([], false)
  | i, f :: rest =>
    if fetch i f then ([f], true)
    else
      let r := attempt_fallback fetch (i + 1) rest
      (f :: r.1, r.2)

/-- The splitting loop of `handle_download`:
`while True: chunk_data = f.read(CHUNK_SIZE); if not chunk_data: break`.
`f.read 0` returns an empty buffer, so a zero chunk size reads nothing. -/
def split_chunks (c : Nat) : List Nat → List (List Nat)
  | [] => []
  | x :: rest =>
    if c = 0 then []
    else (x :: rest).take c :: split_chunks c ((x :: rest).drop c)
termination_by data => data.length
decreasing_by
  simp only [List.length_drop, List.length_cons]
  omega

/-- Python's format spec `03d` applied to the chunk index: the decimal
digits of `i`, left-padded with `'0'` to a minimum width of 3. -/
def pyFormat03 (i : Nat) : String :=
  let s := toString i
  String.mk (List.replicate (3 - s.length) '0') ++ s

/-- The chunk name built by `handle_download`: the sanitized file name, the
literal `.part`, and the padded chunk index. -/
def chunk_filename (filename : String) (i : Nat) : String :=
  filename ++ ".part" ++ pyFormat03 i

/-- The URL-safe base64 alphabet used by `base64.urlsafe_b64encode`. -/
def b64url_alphabet : List Char :=
  "ABCDEFGHIJKLMNOPQRSTUVWXYZabcdefghijklmnopqrstuvwxyz0123456789-_".toList

/-- One output character of the base64 encoding (6-bit value to character). -/
def b64char (n : Nat) : Char := b64url_alphabet.getD n '='

/-- Python's `base64.urlsafe_b64encode` on a byte list (with `=` padding). -/
def urlsafe_b64encode : List Nat → List Char
  | [] => []
  | [b] => [b64char (b / 4), b64char (b % 4 * 16), '=', '=']
  | [b1, b2] =>
    [b64char (b1 / 4), b64char (b1 % 4 * 16 + b2 / 16), b64char (b2 % 16 * 4), '=']
  | b1 :: b2 :: b3 :: rest =>
    b64char (b1 / 4) :: b64char (b1 % 4 * 16 + b2 / 16) ::
      b64char (b2 % 16 * 4 + b3 / 64) :: b64char (b3 % 64) :: urlsafe_b64encode rest

/-- The function `generate_url_id`:
`base64.urlsafe_b64encode(hashlib.md5(url.encode('utf-8')).digest())[:12]`.
The MD5 digest itself is external library code (`hashlib`), so it is a
parameter `md5` mapping the URL to its 16-byte digest; the encoding and
truncation are modelled concretely.  (The `except: return "default"`
branch is reachable only when UTF-8 encoding of the text fails, which the
embedding does not model.) -/
def generate_url_id (md5 : String → List Nat) (url : String) : String :=
  String.mk ((urlsafe_b64encode (md5 url)).take 12)

/-- The process-wide `url_cache` dict, as an association list where the most
recent insertion for a key shadows older ones. -/
abbrev UrlCache := List (String × String)

/-- The function `store_url`: compute the id, insert `id -> url` into the
cache, return the id.  Returns the id and the updated cache. -/
def store_url (md5 : String → List Nat) (cache : UrlCache) (url : String) :
    String × UrlCache :=
  let url_id := generate_url_id md5 url
  (url_id, (url_id, url) :: cache)

/-- The function `get_url`: a plain dictionary lookup. -/
def get_url (cache : UrlCache) (url_id : String) : Option String :=
  (List.find? (fun p => p.1 == url_id) cache).map (fun p => p.2)

/-- The table `size_names = ["B", "KB", "MB", "GB"]` of `format_file_size`. -/
def size_names : List String := ["B", "KB", "MB", "GB"]

/-- Division of naturals rounded half to even, Python's rounding mode for
`round`. -/
def half_even_div (n d : Nat) : Nat :=
  let q := n / d
  let r := n % d
  if 2 * r < d then q
  else if d < 2 * r then q + 1
  else if q % 2 = 0 then q else q + 1

/-- Rendering of `round(n / d, 2)` for `d = 1024 ^ i`, `i ≤ 3`, `n < 1024 ^ 4`:
the quotient `n / d` is a dyadic rational with numerator below `2 ^ 53`, so
the IEEE-754 division in the source is exact, Python's `round(x, 2)` rounds
the exact value half-to-even to a multiple of 1/100, and `repr` of the
result (at most 6 significant digits) prints that multiple with trailing
zeros dropped but at least one fractional digit. -/
def render_round2 (n d : Nat) : String :=
  let k := half_even_div (n * 100) d
  let ip := k / 100
  let fr := k % 100
  if fr = 0 then toString ip ++ ".0"
  else if fr % 10 = 0 then toString ip ++ "." ++ toString (fr / 10)
  else if fr < 10 then toString ip ++ ".0" ++ toString fr
  else toString ip ++ "." ++ toString fr

/-- The unit index `int(math.floor(math.log(n, 1024)))` of `format_file_size`,
for `n ≥ 1`,
as long as the result is a valid index into `size_names` (otherwise the
`size_names[i]` lookup raises `IndexError`, modelled as `none`).  For
`1 ≤ n < 1024 ^ 4` the float computation coincides with the exact floor of
the base-1024 logarithm: the only integers where a 1-ulp error could move
the floor are the exact powers `1024 ^ k`, and there
`math.log(1024 ** k, 1024)` evaluates to exactly `k` (`fl(ln 2 ^ (10 k))`
is an exact power-of-two multiple of `fl(ln 2 ^ 10)` for `k = 1, 2, 4`, and
the remaining boundary `k = 3` was checked to divide exactly as well).  For
`n ≥ 1024 ^ 4` the floor is `≥ 4` in both the float and the exact reading. -/
def unit_index (n : Nat) : Option Nat :=
  if n < 1024 then some 0
  else if n < 1024 ^ 2 then some 1
  else if n < 1024 ^ 3 then some 2
  else if n < 1024 ^ 4 then some 3
  else none

/-- The function `format_file_size`.  A `none` models an uncaught exception:
`math.log` raises `ValueError` on a negative argument, and a unit index
past the end of `size_names` raises `IndexError`. -/
def format_file_size (size_bytes : Int) : Option String :=
  if size_bytes = 0 then some "0B"
  else if size_bytes < 0 then none
  else
    let n := size_bytes.toNat
    match unit_index n with
    | none => none
    | some i => some (render_round2 n (1024 ^ i) ++ " " ++ size_names.getD i "")

/-- The character class of the first `re.sub` in `sanitize_filename`:
`[<>:"/\\|?*\x00-\x1f]`. -/
def isHostileChar (c : Char) : Bool :=
  c == '<' || c == '>' || c == ':' || c == '"' || c == '/' || c == '\\' ||
    c == '|' || c == '?' || c == '*' || c.toNat < 32

/-- Python's `\s` at ASCII precision: space, tab, newline, carriage return,
vertical tab, form feed. -/
def isPySpace (c : Char) : Bool :=
  c == ' ' || c == '\t' || c == '\n' || c == '\r' ||
    c == Char.ofNat 11 || c == Char.ofNat 12

/-- The character class kept by the second `re.sub` in `sanitize_filename`:
`[\w\s\-_\.]` (word characters, whitespace, hyphen, underscore, dot), at
ASCII precision. -/
def keepChar (c : Char) : Bool :=
  (c.isAlphanum && c.toNat < 128) || c == '_' || isPySpace c || c == '-' || c == '.'

/-- Python's `str.strip()` on a character list (ASCII whitespace). -/
def pyStripL (l : List Char) : List Char :=
  ((l.dropWhile isPySpace).reverse.dropWhile isPySpace).reverse

/-- Python's `os.path.splitext` on a (slash-free) character list: split at the last
dot, unless every character before that dot is itself a dot (then there is
no extension, e.g. `".bashrc"` or `"..mp4"`). -/
def splitext (l : List Char) : List Char × List Char :=
  let rev := l.reverse
  let k := rev.takeWhile (fun c => c != '.')
  if k.length = l.length then (l, [])
  else
    let stem := (rev.drop (k.length + 1)).reverse
    if stem.all (fun c => c == '.') then (l, [])
    else (stem, '.' :: k.reverse)

/-- The two `re.sub` filters followed by `str.strip()` in `sanitize_filename`. -/
def filter_and_strip (l : List Char) : List Char :=
  pyStripL ((l.filter (fun c => !isHostileChar c)).filter keepChar)

/-- The function `sanitize_filename`. -/
def sanitize_filename (filename : String) : String :=
  if filename = "" then "video"
  else
    let cleaned := filter_and_strip filename.toList
    let limited :=
      if 80 < cleaned.length then
        let se := splitext cleaned
        se.1.take 70 ++ ['.', '.', '.'] ++ se.2
      else cleaned
    if limited = [] then "video" else String.mk limited

/-- Python's `str.lower()` at ASCII precision. -/
def pyLower (s : String) : String := String.mk (s.toList.map Char.toLower)

/-- Python's `s.startswith(p)`, character-exact. -/
def py_startswith (s p : String) : Bool :=
  s.toList.take p.toList.length == p.toList

/-- Python's substring containment `pat in l`. -/
def list_contains_sub (pat l : List Char) : Bool :=
  (List.range (l.length + 1)).any (fun i => (l.drop i).take pat.length == pat)

/-- The `SUPPORTED_PLATFORMS` set of domain strings. -/
def SUPPORTED_PLATFORMS : List String :=
  ["youtube.com", "youtu.be", "m.youtube.com", "youtube-nocookie.com",
   "facebook.com", "fb.watch", "m.facebook.com", "web.facebook.com",
   "instagram.com", "www.instagram.com", "tiktok.com", "vm.tiktok.com",
   "twitter.com", "x.com", "reddit.com", "v.redd.it", "vimeo.com",
   "dailymotion.com", "twitch.tv", "soundcloud.com", "terabox.com",
   "likee.com", "kwai.com", "bilibili.com", "t.me", "discord.com",
   "pin.it", "pinterest.com", "rutube.ru", "ok.ru", "whatsapp.com"]

/-- One match attempt of the regex `://(?:www\.)?([^/]+)` at a position just
after a `"://"` occurrence: the greedy optional `www.` group is taken when a
non-empty run of non-slash characters follows it, otherwise the engine
backtracks and captures the full non-empty non-slash run (failing when the
run is empty). -/
def match_after_scheme_sep (l : List Char) : Option (List Char) :=
  let run := l.takeWhile (fun c => c != '/')
  let wrun := (l.drop 4).takeWhile (fun c => c != '/')
  if l.take 4 == "www.".toList && !wrun.isEmpty then some wrun
  else if !run.isEmpty then some run
  else none

/-- Python's regex search for the authority pattern: try a match at each position
from the left; a position matches when `"://"` starts there and
`match_after_scheme_sep` succeeds on the remainder. -/
def find_domain : List Char → Option (List Char)
  | [] => none
  | c :: rest =>
    if (c :: rest).take 3 == "://".toList then
      match match_after_scheme_sep (rest.drop 2) with
      | some d => some d
      | none => find_domain rest
    else find_domain rest

/-- The function `is_valid_url`: requires the literal prefix `http://` or `https://`,
extracts the authority from the lowercased URL, and accepts when any
supported platform string occurs as a substring of the authority. -/
def is_valid_url (url : String) : Bool :=
  if !(py_startswith url "http://" || py_startswith url "https://") then false
  else
    match find_domain (pyLower url).toList with
    | none => false
    | some domain => SUPPORTED_PLATFORMS.any (fun p => list_contains_sub p.toList domain)

/-- Shorthand used by `detect_platform`: does the lowercased URL contain the
domain string anywhere (Python's `domain in url_lower`)? -/
def url_has (url : String) (domain : String) : Bool :=
  list_contains_sub domain.toList (pyLower url).toList

/-- The function `detect_platform`: the literal `if`/`elif` chain over substring tests on
the whole lowercased URL. -/
def detect_platform (url : String) : String :=
  if url_has url "youtube.com" || url_has url "youtu.be" then "youtube"
  else if url_has url "facebook.com" || url_has url "fb.watch" then "facebook"
  else if url_has url "instagram.com" then "instagram"
  else if url_has url "tiktok.com" || url_has url "vm.tiktok.com" then "tiktok"
  else if url_has url "twitter.com" || url_has url "x.com" then "twitter"
  else if url_has url "reddit.com" || url_has url "v.redd.it" then "reddit"
  else if url_has url "vimeo.com" then "vimeo"
  else if url_has url "dailymotion.com" then "dailymotion"
  else if url_has url "twitch.tv" then "twitch"
  else if url_has url "soundcloud.com" then "soundcloud"
  else if url_has url "terabox.com" then "terabox"
  else if url_has url "likee.com" then "likee"
  else if url_has url "kwai.com" then "kwai"
  else if url_has url "bilibili.com" then "bilibili"
  else if url_has url "pinterest.com" || url_has url "pin.it" then "pinterest"
  else if url_has url "rutube.ru" then "rutube"
  else if url_has url "ok.ru" then "ok"
  else if url_has url "whatsapp.com" then "whatsapp"
  else "default"

/-- The platform table in the order checked by `detect_platform`, written
the way the claim describes it: an ordered list of platform tags, each with
the substrings whose presence anywhere in the lowercased URL selects it. -/
def platform_table : List (String × List String) :=
  [("youtube", ["youtube.com", "youtu.be"]),
   ("facebook", ["facebook.com", "fb.watch"]),
   ("instagram", ["instagram.com"]),
   ("tiktok", ["tiktok.com", "vm.tiktok.com"]),
   ("twitter", ["twitter.com", "x.com"]),
   ("reddit", ["reddit.com", "v.redd.it"]),
   ("vimeo", ["vimeo.com"]),
   ("dailymotion", ["dailymotion.com"]),
   ("twitch", ["twitch.tv"]),
   ("soundcloud", ["soundcloud.com"]),
   ("terabox", ["terabox.com"]),
   ("likee", ["likee.com"]),
   ("kwai", ["kwai.com"]),
   ("bilibili", ["bilibili.com"]),
   ("pinterest", ["pinterest.com", "pin.it"]),
   ("rutube", ["rutube.ru"]),
   ("ok", ["ok.ru"]),
   ("whatsapp", ["whatsapp.com"])]

/-- First-match lookup over an ordered platform table (the claim's reading
of the classifier: the first platform whose substring occurs anywhere in
the URL wins, `"default"` otherwise). -/
def first_match (url : String) : List (String × List String) → String
  | [] => "default"
  | (tag, doms) :: rest =>
    if doms.any (fun d => url_has url d) then tag else first_match url rest

/-- The classifier as the claim states it. -/
def detect_platform_spec (url : String) : String :=
  first_match url platform_table

/-- Filesystem abstraction for the scratch-directory claim: whether the
orchestration call's scratch directory currently exists. -/
structure FS where
  tempDirExists : Bool
deriving DecidableEq, Repr

/-- Exit paths of the download phase of `handle_download` (the body of the
`with tempfile.TemporaryDirectory()` block).  `raised` stands for an
exception escaping the block (it still passes through the context
manager's `__exit__`). -/
inductive DlExit where
  | allFormatsFailed : DlExit
  | noOutput : DlExit
  | sentSingle : DlExit
  | sentChunked : DlExit
  | downloadError : DlExit
  | raised : DlExit
deriving DecidableEq, Repr

/-- The environment one orchestration call runs against: per-attempt fetch
outcomes, the files `os.listdir` finds afterwards, the size of the first
file, and whether the delivery and error-reporting awaits raise. -/
structure DlOracle where
  fetchOk : Nat → String → Bool
  filesFound : List String
  fileSize : Nat
  deliveryRaises : Bool
  errorEditRaises : Bool

/-- The body of the `with tempfile.TemporaryDirectory()` block in
`handle_download`: run the fallback loop; report failure when no selector
succeeded; report `NoOutputProduced` when the directory holds no
non-hidden file; otherwise deliver according to the size branch.  Any
exception inside the inner `try` is caught by its `except` handler and
reported via `edit_text`; an exception raised by that handler itself
escapes the block. -/
def download_body (o : DlOracle) (quality : String) : DlExit :=
  let r := attempt_fallback o.fetchOk 0 (formats_to_try (format_selector_for quality))
  if !r.2 then .allFormatsFailed
  else
    let downloaded_files := o.filesFound.filter (fun f => !py_startswith f ".")
    if downloaded_files.isEmpty then .noOutput
    else if o.deliveryRaises then
      if o.errorEditRaises then .raised else .downloadError
    else
      match delivery_plan o.fileSize with
      | .single => .sentSingle
      | .chunked => .sentChunked

/-- Python's `with tempfile.TemporaryDirectory() as temp_dir:` —
`__enter__` creates the directory; `__exit__` removes it on every exit of
the body: normal completion, early `return`, or a propagating exception. -/
def with_temp_dir (body : FS → FS × DlExit) (fs : FS) : FS × DlExit :=
  let fs1 : FS := { fs with tempDirExists := true }
  let r := body fs1
  ({ r.1 with tempDirExists := false }, r.2)

/-- The download phase of one orchestration call. -/
def run_download_phase (o : DlOracle) (quality : String) (fs : FS) : FS × DlExit :=
  with_temp_dir (fun fs1 => (fs1, download_body o quality)) fs

/-- The function `list_contains_sub` decides substring occurrence. -/
theorem list_contains_sub_iff (pat l : List Char) :
    list_contains_sub pat l = true ↔ ∃ pre post, l = pre ++ pat ++ post := by
  unfold list_contains_sub
  rw [List.any_eq_true]
  constructor
  · rintro ⟨i, -, hi⟩
    rw [beq_iff_eq] at hi
    refine ⟨l.take i, (l.drop i).drop pat.length, ?_⟩
    rw [List.append_assoc]
    nth_rewrite 1 [← hi]
    rw [List.take_append_drop, List.take_append_drop]
  · rintro ⟨pre, post, rfl⟩
    refine ⟨pre.length, List.mem_range.mpr ?_, ?_⟩
    · simp only [List.length_append]
      omega
    · rw [beq_iff_eq, List.append_assoc, List.drop_left, List.take_left]

/-- C4: the delivery-shape decision uses exactly `MAX_FILE_SIZE = 50 MiB`
and `CHUNK_SIZE = 45 MiB`; a downloaded file of at most 50 MiB is delivered
as a single unit and a larger one is chunked. -/
theorem delivery_plan_thresholds :
    MAX_FILE_SIZE = 50 * 1024 * 1024 ∧ CHUNK_SIZE = 45 * 1024 * 1024 ∧
    ∀ file_size : Nat,
      delivery_plan file_size =
        if file_size ≤ 50 * 1024 * 1024 then DeliveryPlan.single else DeliveryPlan.chunked :=
  ⟨rfl, rfl, fun _ => rfl⟩

/-- C5: storing a URL and resolving the returned id yields the original URL
(the registry round-trip), under the claim's proviso that no earlier stored
URL collides with it under the truncated-hash id. -/
theorem store_url_roundtrip (md5 : String → List Nat) (cache : UrlCache) (url : String)
    (_hcol : ∀ p ∈ cache, p.2 ≠ url →
      generate_url_id md5 p.2 ≠ generate_url_id md5 url) :
    get_url (store_url md5 cache url).2 (store_url md5 cache url).1 = some url := by
  unfold store_url get_url
  rw [List.find?_cons_of_pos _ (by simp)]
  rfl

/-- Witness for `store_url_roundtrip` at a concrete digest function, an
empty cache and a concrete URL. -/
theorem store_url_roundtrip_witness :
    (∀ p ∈ ([] : UrlCache), p.2 ≠ "https://youtube.com/watch" →
      generate_url_id (fun _ => List.replicate 16 0) p.2 ≠
        generate_url_id (fun _ => List.replicate 16 0) "https://youtube.com/watch") ∧
    get_url
        (store_url (fun _ => List.replicate 16 0) [] "https://youtube.com/watch").2
        (store_url (fun _ => List.replicate 16 0) [] "https://youtube.com/watch").1 =
      some "https://youtube.com/watch" :=
  ⟨by simp, store_url_roundtrip _ _ _ (by simp)⟩

/-- C1: for every quality selection the orchestrator builds the fallback
list `[primary, "best", "worst"]` and walks it in order with a
first-success policy: when the first two attempts fail and the third
succeeds it attempts exactly all three in order; when an earlier attempt
succeeds it stops there and attempts nothing further. -/
theorem fallback_order_first_success (quality : String) (fetch : Nat → String → Bool) :
    formats_to_try (format_selector_for quality) =
      [format_selector_for quality, "best", "worst"] ∧
    (fetch 0 (format_selector_for quality) = false → fetch 1 "best" = false →
      fetch 2 "worst" = true →
      attempt_fallback fetch 0 (formats_to_try (format_selector_for quality)) =
        ([format_selector_for quality, "best", "worst"], true)) ∧
    (fetch 0 (format_selector_for quality) = true →
      attempt_fallback fetch 0 (formats_to_try (format_selector_for quality)) =
        ([format_selector_for quality], true)) ∧
    (fetch 0 (format_selector_for quality) = false → fetch 1 "best" = true →
      attempt_fallback fetch 0 (formats_to_try (format_selector_for quality)) =
        ([format_selector_for quality, "best"], true)) := by
  refine ⟨rfl, ?_, ?_, ?_⟩
  · intro h0 h1 h2
    simp [attempt_fallback, formats_to_try, h0, h1, h2]
  · intro h0
    simp [attempt_fallback, formats_to_try, h0]
  · intro h0 h1
    simp [attempt_fallback, formats_to_try, h0, h1]

/-- Witness for `fallback_order_first_success`: quality `"high"`, the first
two attempts fail, the third succeeds. -/
theorem fallback_order_first_success_witness :
    ((fun i (_ : String) => i == 2) 0 (format_selector_for "high") = false ∧
      (fun i (_ : String) => i == 2) 1 "best" = false ∧
      (fun i (_ : String) => i == 2) 2 "worst" = true) ∧
    attempt_fallback (fun i (_ : String) => i == 2) 0
        (formats_to_try (format_selector_for "high")) =
      ([format_selector_for "high", "best", "worst"], true) :=
  ⟨⟨rfl, rfl, rfl⟩,
    (fallback_order_first_success "high" (fun i _ => i == 2)).2.1 rfl rfl rfl⟩

/-- C3: the scratch directory of an orchestration call does not exist after
the call returns, on every exit path — and each of the modelled exit paths
(exhausted fallback, no output file, single-unit delivery, chunked
delivery, caught delivery error, escaping exception) is in fact reachable. -/
theorem scratch_dir_removed :
    (∀ (o : DlOracle) (quality : String) (fs : FS),
      (run_download_phase o quality fs).1.tempDirExists = false) ∧
    (∀ e : DlExit, ∃ (o : DlOracle) (quality : String) (fs : FS),
      (run_download_phase o quality fs).2 = e) := by
  constructor
  · intro o quality fs
    rfl
  · intro e
    cases e with
    | allFormatsFailed => exact ⟨⟨fun _ _ => false, [], 0, false, false⟩, "high", ⟨true⟩, rfl⟩
    | noOutput => exact ⟨⟨fun _ _ => true, [], 0, false, false⟩, "high", ⟨true⟩, rfl⟩
    | sentSingle => exact ⟨⟨fun _ _ => true, ["f.mp4"], 0, false, false⟩, "high", ⟨true⟩, rfl⟩
    | sentChunked =>
      exact ⟨⟨fun _ _ => true, ["f.mp4"], 50 * 1024 * 1024 + 1, false, false⟩, "high",
        ⟨true⟩, rfl⟩
    | downloadError => exact ⟨⟨fun _ _ => true, ["f.mp4"], 0, true, false⟩, "high", ⟨true⟩, rfl⟩
    | raised => exact ⟨⟨fun _ _ => true, ["f.mp4"], 0, true, true⟩, "high", ⟨true⟩, rfl⟩

/-- C8: a URL without the `http://`/`https://` scheme prefix is never
accepted; and a URL with that prefix whose extracted authority (lowercased,
with a leading `www.` stripped by the pattern) contains any supported
platform string as a substring is accepted. -/
theorem url_validation (url : String) :
    (¬ (py_startswith url "http://" = true ∨ py_startswith url "https://" = true) →
      is_valid_url url = false) ∧
    ((py_startswith url "http://" = true ∨ py_startswith url "https://" = true) →
      ∀ d : List Char, find_domain (pyLower url).toList = some d →
        (∃ p ∈ SUPPORTED_PLATFORMS, ∃ pre post : List Char, d = pre ++ p.toList ++ post) →
        is_valid_url url = true) := by
  constructor
  · intro h
    push_neg at h
    have ha : py_startswith url "http://" = false := by
      cases hh : py_startswith url "http://" with
      | true => exact absurd hh h.1
      | false => rfl
    have hb : py_startswith url "https://" = false := by
      cases hh : py_startswith url "https://" with
      | true => exact absurd hh h.2
      | false => rfl
    simp [is_valid_url, ha, hb]
  · intro hs d hd hex
    have hcond : (py_startswith url "http://" || py_startswith url "https://") = true := by
      rcases hs with h | h <;> simp [h]
    obtain ⟨p, hp, pre, post, hsplit⟩ := hex
    unfold is_valid_url
    rw [hcond]
    simp only [Bool.not_true, Bool.false_eq_true, if_false, hd]
    rw [List.any_eq_true]
    exact ⟨p, hp, (list_contains_sub_iff _ _).mpr ⟨pre, post, hsplit⟩⟩

/-- Witness for `url_validation`: a well-formed YouTube URL is accepted. -/
theorem url_validation_witness :
    py_startswith "https://www.youtube.com/watch?v=1" "https://" = true ∧
    find_domain (pyLower "https://www.youtube.com/watch?v=1").toList =
      some "youtube.com".toList ∧
    is_valid_url "https://www.youtube.com/watch?v=1" = true :=
  ⟨by decide, by decide,
    (url_validation "https://www.youtube.com/watch?v=1").2 (Or.inr (by decide))
      "youtube.com".toList (by decide)
      ⟨"youtube.com", by decide, [], [], by decide⟩⟩

/-- C10: the platform classifier tests its domain substrings against the
whole lowercased URL, not only the authority — any URL containing
`youtube.com` or `youtu.be` anywhere classifies as `"youtube"` — and in
general it returns the first entry of the ordered platform table one of
whose substrings occurs anywhere in the URL. -/
theorem platform_substring_classification :
    (∀ url : String,
      url_has url "youtube.com" = true ∨ url_has url "youtu.be" = true →
      detect_platform url = "youtube") ∧
    (∀ url : String, detect_platform url = detect_platform_spec url) := by
  constructor
  · intro url h
    rcases h with h | h <;> simp [detect_platform, h]
  · intro url
    simp [detect_platform, detect_platform_spec, platform_table, first_match]

/-- Witness for `platform_substring_classification`: a URL whose host is
not YouTube but whose query string mentions `youtube.com` classifies as
`"youtube"`. -/
theorem platform_substring_classification_witness :
    url_has "https://evil.example/?q=youtube.com" "youtube.com" = true ∧
    detect_platform "https://evil.example/?q=youtube.com" = "youtube" :=
  ⟨by decide,
    platform_substring_classification.1 "https://evil.example/?q=youtube.com"
      (Or.inl (by decide))⟩

/-- Inside the defined range, the unit index is the floor of the base-1024
logarithm. -/
theorem unit_index_eq_log (n : Nat) (h1 : 0 < n) (h2 : n < 1024 ^ 4) :
    unit_index n = some (Nat.log 1024 n) := by
  unfold unit_index
  norm_num at h2
  split_ifs with ha hb hc hd
  · rw [Nat.log_eq_zero_iff.mpr (Or.inl ha)]
  · norm_num at hb
    rw [show Nat.log 1024 n = 1 from
      Nat.log_eq_of_pow_le_of_lt_pow (by norm_num; omega) (by norm_num; omega)]
  · norm_num at hb hc
    rw [show Nat.log 1024 n = 2 from
      Nat.log_eq_of_pow_le_of_lt_pow (by norm_num; omega) (by norm_num; omega)]
  · norm_num at hb hc
    rw [show Nat.log 1024 n = 3 from
      Nat.log_eq_of_pow_le_of_lt_pow (by norm_num; omega) (by norm_num; omega)]
  · norm_num at hd
    omega

/-- C6: the formatter prints `"0B"` at zero, `"1.5 KB"` at 1536 bytes and
`"1.0 MB"` at one mebibyte; in general, for sizes in the defined range, the
unit is `size_names` at the floor of the base-1024 logarithm and the value
is the size divided by that power of 1024, rounded to two decimal places. -/
theorem format_file_size_spec :
    format_file_size 0 = some "0B" ∧
    format_file_size 1536 = some "1.5 KB" ∧
    format_file_size (1024 * 1024) = some "1.0 MB" ∧
    ∀ n : Nat, 0 < n → n < 1024 ^ 4 →
      format_file_size (n : Int) =
        some (render_round2 n (1024 ^ Nat.log 1024 n) ++ " " ++
          size_names.getD (Nat.log 1024 n) "") := by
  refine ⟨by decide, by decide, by decide, ?_⟩
  intro n h1 h2
  have hu := unit_index_eq_log n h1 h2
  have hn0 : ¬ (n : Int) = 0 := by omega
  have hnneg : ¬ (n : Int) < 0 := by omega
  simp [format_file_size, hn0, hnneg, hu]

/-- Witness for `format_file_size_spec` at 10498105 bytes. -/
theorem format_file_size_spec_witness :
    0 < 10498105 ∧ 10498105 < 1024 ^ 4 ∧
    format_file_size ((10498105 : Nat) : Int) =
      some (render_round2 10498105 (1024 ^ Nat.log 1024 10498105) ++ " " ++
        size_names.getD (Nat.log 1024 10498105) "") :=
  ⟨by norm_num, by norm_num,
    format_file_size_spec.2.2.2 10498105 (by norm_num) (by norm_num)⟩

/-- C9: the formatter is defined exactly on `0 ≤ size < 1024 ^ 4`; at one
tebibyte and beyond the unit lookup leaves the table (`IndexError`), and on
negative sizes the logarithm is undefined (`ValueError`). -/
theorem format_file_size_domain (s : Int) :
    ((1024 : Int) ^ 4 ≤ s → format_file_size s = none) ∧
    (s < 0 → format_file_size s = none) ∧
    (0 ≤ s → s < (1024 : Int) ^ 4 → (format_file_size s).isSome = true) := by
  refine ⟨?_, ?_, ?_⟩
  · intro h
    norm_num at h
    have hs0 : ¬ s = 0 := by omega
    have hsneg : ¬ s < 0 := by omega
    have hn : unit_index s.toNat = none := by
      unfold unit_index
      rw [if_neg (by omega), if_neg (by norm_num; omega), if_neg (by norm_num; omega),
        if_neg (by norm_num; omega)]
    simp [format_file_size, hs0, hsneg, hn]
  · intro h
    unfold format_file_size
    rw [if_neg (by omega), if_pos h]
  · intro h0 h4
    by_cases hz : s = 0
    · subst hz
      decide
    · have hpos : 0 < s := by omega
      have htn : 0 < s.toNat := by omega
      have htn4 : s.toNat < 1024 ^ 4 := by
        norm_num at h4 ⊢
        omega
      have hu := unit_index_eq_log s.toNat htn htn4
      simp [format_file_size, hz, (by omega : ¬ s < 0), hu]
      omega

/-- Witness for `format_file_size_domain` at 1 TiB, at a negative size and
at a small in-range size. -/
theorem format_file_size_domain_witness :
    ((1024 : Int) ^ 4 ≤ 1024 ^ 4 ∧ format_file_size (1024 ^ 4) = none) ∧
    ((-5 : Int) < 0 ∧ format_file_size (-5) = none) ∧
    ((0 : Int) ≤ 7 ∧ (7 : Int) < 1024 ^ 4 ∧ (format_file_size 7).isSome = true) :=
  ⟨⟨le_refl _, (format_file_size_domain (1024 ^ 4)).1 (le_refl _)⟩,
    ⟨by norm_num, (format_file_size_domain (-5)).2.1 (by norm_num)⟩,
    ⟨by norm_num, by norm_num,
      (format_file_size_domain 7).2.2 (by norm_num) (by norm_num)⟩⟩

/-- Unfolding `split_chunks` on a non-empty list with a non-zero chunk size. -/
theorem split_chunks_cons (c : Nat) (hc : c ≠ 0) (x : Nat) (rest : List Nat) :
    split_chunks c (x :: rest) =
      (x :: rest).take c :: split_chunks c ((x :: rest).drop c) := by
  rw [split_chunks, if_neg hc]

/-- The number of chunks is the length divided by the chunk size, rounded up
(fuel-indexed induction). -/
theorem length_split_chunks_aux (c : Nat) (hc : c ≠ 0) :
    ∀ (fuel : Nat) (l : List Nat), l.length ≤ fuel →
      (split_chunks c l).length = (l.length + c - 1) / c := by
  intro fuel
  induction fuel with
  | zero =>
    intro l hl
    obtain rfl : l = [] := List.eq_nil_of_length_eq_zero (Nat.le_zero.mp hl)
    have h0 : (c - 1) / c = 0 := Nat.div_eq_of_lt (by omega)
    simp [split_chunks, h0]
  | succ fuel ih =>
    intro l hl
    match l with
    | [] =>
      have h0 : (c - 1) / c = 0 := Nat.div_eq_of_lt (by omega)
      simp [split_chunks, h0]
    | x :: rest =>
      rw [split_chunks_cons c hc, List.length_cons,
        ih _ (by simp only [List.length_drop, List.length_cons] at hl ⊢; omega)]
      simp only [List.length_drop, List.length_cons]
      rcases le_or_lt (rest.length + 1) c with hle | hlt
      · have h1 : rest.length + 1 - c = 0 := by omega
        have h2 : (0 + c - 1) / c = 0 := Nat.div_eq_of_lt (by omega)
        have h3 : (rest.length + 1 + c - 1) / c = 1 := by
          apply Nat.div_eq_of_lt_le <;> omega
        rw [h1, h2, h3]
      · have h2 : rest.length + 1 - c + c - 1 = rest.length := by omega
        have h3 : rest.length + 1 + c - 1 = rest.length + c := by omega
        rw [h2, h3, Nat.add_div_right _ (by omega)]

/-- Concatenating the chunks in order reproduces the original bytes
(fuel-indexed induction). -/
theorem join_split_chunks_aux (c : Nat) (hc : c ≠ 0) :
    ∀ (fuel : Nat) (l : List Nat), l.length ≤ fuel → (split_chunks c l).flatten = l := by
  intro fuel
  induction fuel with
  | zero =>
    intro l hl
    obtain rfl : l = [] := List.eq_nil_of_length_eq_zero (Nat.le_zero.mp hl)
    simp [split_chunks]
  | succ fuel ih =>
    intro l hl
    match l with
    | [] => simp [split_chunks]
    | x :: rest =>
      rw [split_chunks_cons c hc, List.flatten_cons,
        ih _ (by simp only [List.length_drop, List.length_cons] at hl ⊢; omega)]
      exact List.take_append_drop _ _

/-- Every chunk is non-empty and at most the chunk size (fuel-indexed
induction). -/
theorem mem_split_chunks_aux (c : Nat) (hc : c ≠ 0) :
    ∀ (fuel : Nat) (l : List Nat), l.length ≤ fuel →
      ∀ ch ∈ split_chunks c l, ch.length ≤ c ∧ ch ≠ [] := by
  intro fuel
  induction fuel with
  | zero =>
    intro l hl
    obtain rfl : l = [] := List.eq_nil_of_length_eq_zero (Nat.le_zero.mp hl)
    simp [split_chunks]
  | succ fuel ih =>
    intro l hl
    match l with
    | [] => simp [split_chunks]
    | x :: rest =>
      rw [split_chunks_cons c hc]
      intro ch hch
      rcases List.mem_cons.mp hch with rfl | hmem
      · constructor
        · rw [List.length_take]
          exact Nat.min_le_left _ _
        · obtain ⟨k, rfl⟩ := Nat.exists_eq_succ_of_ne_zero hc
          simp [List.take_succ_cons]
      · exact ih _ (by simp only [List.length_drop, List.length_cons] at hl ⊢; omega) ch hmem

/-- Every chunk except possibly the last has length exactly the chunk size
(fuel-indexed induction). -/
theorem split_chunks_getD_aux (c : Nat) (hc : c ≠ 0) :
    ∀ (fuel : Nat) (l : List Nat), l.length ≤ fuel →
      ∀ i, i + 1 < (split_chunks c l).length →
        ((split_chunks c l).getD i []).length = c := by
  intro fuel
  induction fuel with
  | zero =>
    intro l hl
    obtain rfl : l = [] := List.eq_nil_of_length_eq_zero (Nat.le_zero.mp hl)
    intro i hi
    simp [split_chunks] at hi
  | succ fuel ih =>
    intro l hl
    match l with
    | [] =>
      intro i hi
      simp [split_chunks] at hi
    | x :: rest =>
      rw [split_chunks_cons c hc]
      intro i hi
      match i with
      | 0 =>
        have hdrop : (x :: rest).drop c ≠ [] := by
          intro hnil
          rw [hnil] at hi
          simp [split_chunks] at hi
        have hlen : c < rest.length + 1 := by
          by_contra hle
          push_neg at hle
          exact hdrop (List.drop_eq_nil_of_le (by simpa using hle))
        simp only [List.getD_cons_zero, List.length_take, List.length_cons]
        omega
      | Nat.succ j =>
        simp only [List.getD_cons_succ]
        apply ih _ (by simp only [List.length_drop, List.length_cons] at hl ⊢; omega) j
        simp only [List.length_cons] at hi
        omega

/-- Chunk count as the rounded-up quotient. -/
theorem length_split_chunks (c : Nat) (hc : c ≠ 0) (l : List Nat) :
    (split_chunks c l).length = (l.length + c - 1) / c :=
  length_split_chunks_aux c hc l.length l le_rfl

/-- Chunk concatenation round-trip. -/
theorem join_split_chunks (c : Nat) (hc : c ≠ 0) (l : List Nat) :
    (split_chunks c l).flatten = l :=
  join_split_chunks_aux c hc l.length l le_rfl

/-- Chunk size bound and non-emptiness. -/
theorem mem_split_chunks (c : Nat) (hc : c ≠ 0) (l : List Nat) :
    ∀ ch ∈ split_chunks c l, ch.length ≤ c ∧ ch ≠ [] :=
  mem_split_chunks_aux c hc l.length l le_rfl

/-- All chunks but the last are full. -/
theorem split_chunks_getD (c : Nat) (hc : c ≠ 0) (l : List Nat) :
    ∀ i, i + 1 < (split_chunks c l).length →
      ((split_chunks c l).getD i []).length = c :=
  split_chunks_getD_aux c hc l.length l le_rfl

set_option maxRecDepth 100000 in
/-- Decimal representations of indices below 1000 have at most 3 digits. -/
theorem toString_length_le_three : ∀ i : Nat, i < 1000 → (toString i).length ≤ 3 := by
  decide

/-- The padded index has exactly 3 characters when the plain decimal form
has at most 3. -/
theorem pyFormat03_length (i : Nat) (h : (toString i).length ≤ 3) :
    (pyFormat03 i).length = 3 := by
  simp only [pyFormat03, String.length_append]
  have hm : (String.mk (List.replicate (3 - (toString i).length) '0')).length =
      3 - (toString i).length := by
    show (List.replicate (3 - (toString i).length) '0').length = _
    rw [List.length_replicate]
  rw [hm]
  omega

/-- Counterexample to C2 as stated: for a file of `1000 * CHUNK_SIZE + 1`
bytes (which is larger than 50 MiB) the splitter produces 1001 chunks, and
the final chunk's name carries the four-digit index `1000` — not a
three-digit index as the claim asserts for every chunk. -/
theorem chunk_naming_cex :
    50 * 1024 * 1024 < (List.replicate (1000 * CHUNK_SIZE + 1) (0 : Nat)).length ∧
    (split_chunks CHUNK_SIZE (List.replicate (1000 * CHUNK_SIZE + 1) (0 : Nat))).length =
      1001 ∧
    chunk_filename "video" 1000 = "video.part1000" ∧
    (pyFormat03 1000).length ≠ 3 := by
  refine ⟨?_, ?_, by decide, by decide⟩
  · rw [List.length_replicate]
    decide
  · rw [length_split_chunks CHUNK_SIZE (by decide), List.length_replicate]
    decide

/-- C2 (amended): splitting a file of more than 50 MiB with the 45 MiB
chunk size yields exactly `⌈S / CHUNK_SIZE⌉` chunks; every chunk except
possibly the last is exactly `CHUNK_SIZE` bytes; every chunk is non-empty
and at most `CHUNK_SIZE` bytes; concatenating the chunks in index order
reproduces the original bytes; and chunk `i` is named
`<sanitized name>.part<i>` with the index zero-padded to a minimum width of
three digits — exactly three digits whenever `i < 1000` (wider indices
occur only for files over `1000 * CHUNK_SIZE` bytes, see
`chunk_naming_cex`). -/
theorem split_file_spec (data : List Nat) (_hbig : 50 * 1024 * 1024 < data.length) :
    (split_chunks CHUNK_SIZE data).length = (data.length + CHUNK_SIZE - 1) / CHUNK_SIZE ∧
    (∀ i, i + 1 < (split_chunks CHUNK_SIZE data).length →
      ((split_chunks CHUNK_SIZE data).getD i []).length = CHUNK_SIZE) ∧
    (∀ ch ∈ split_chunks CHUNK_SIZE data, ch.length ≤ CHUNK_SIZE ∧ ch ≠ []) ∧
    (split_chunks CHUNK_SIZE data).flatten = data ∧
    (∀ (filename : String) (i : Nat),
      chunk_filename filename i = filename ++ ".part" ++ pyFormat03 i ∧
      (i < 1000 → (pyFormat03 i).length = 3)) := by
  refine ⟨length_split_chunks CHUNK_SIZE (by decide) data,
    split_chunks_getD CHUNK_SIZE (by decide) data,
    mem_split_chunks CHUNK_SIZE (by decide) data,
    join_split_chunks CHUNK_SIZE (by decide) data,
    fun filename i => ⟨rfl, fun hi => pyFormat03_length i (toString_length_le_three i hi)⟩⟩

/-- Witness for `split_file_spec` on a concrete file one byte over the
50 MiB threshold. -/
theorem split_file_spec_witness :
    50 * 1024 * 1024 < (List.replicate (50 * 1024 * 1024 + 1) (0 : Nat)).length ∧
    ((split_chunks CHUNK_SIZE (List.replicate (50 * 1024 * 1024 + 1) (0 : Nat))).length =
        ((List.replicate (50 * 1024 * 1024 + 1) (0 : Nat)).length + CHUNK_SIZE - 1) /
          CHUNK_SIZE ∧
      (∀ i, i + 1 <
          (split_chunks CHUNK_SIZE (List.replicate (50 * 1024 * 1024 + 1) (0 : Nat))).length →
        ((split_chunks CHUNK_SIZE
            (List.replicate (50 * 1024 * 1024 + 1) (0 : Nat))).getD i []).length =
          CHUNK_SIZE) ∧
      (∀ ch ∈ split_chunks CHUNK_SIZE (List.replicate (50 * 1024 * 1024 + 1) (0 : Nat)),
        ch.length ≤ CHUNK_SIZE ∧ ch ≠ []) ∧
      (split_chunks CHUNK_SIZE (List.replicate (50 * 1024 * 1024 + 1) (0 : Nat))).flatten =
        List.replicate (50 * 1024 * 1024 + 1) (0 : Nat) ∧
      (∀ (filename : String) (i : Nat),
        chunk_filename filename i = filename ++ ".part" ++ pyFormat03 i ∧
        (i < 1000 → (pyFormat03 i).length = 3))) :=
  ⟨by rw [List.length_replicate]; omega,
    split_file_spec (List.replicate (50 * 1024 * 1024 + 1) (0 : Nat))
      (by rw [List.length_replicate]; omega)⟩

/-- A list whose `takeWhile` is proper decomposes as the prefix, one
failing element, and the rest. -/
theorem takeWhile_split (p : Char → Bool) :
    ∀ l : List Char, (l.takeWhile p).length ≠ l.length →
      ∃ c, p c = false ∧
        l = l.takeWhile p ++ c :: l.drop ((l.takeWhile p).length + 1) := by
  intro l
  induction l with
  | nil => intro h; simp at h
  | cons x xs ih =>
    intro h
    cases px : p x with
    | true =>
      rw [List.takeWhile_cons, px] at h ⊢
      simp only [if_true, List.length_cons] at h ⊢
      have h' : (xs.takeWhile p).length ≠ xs.length := by
        intro he
        exact h (by simp [he])
      obtain ⟨c, hc, heq⟩ := ih h'
      refine ⟨c, hc, ?_⟩
      rw [List.cons_append, List.drop_succ_cons]
      exact congrArg (x :: ·) heq
    | false =>
      rw [List.takeWhile_cons, px]
      exact ⟨x, px, by simp⟩

/-- The stem and extension returned by `splitext` concatenate back to the
input. -/
theorem splitext_append (l : List Char) : (splitext l).1 ++ (splitext l).2 = l := by
  simp only [splitext]
  split_ifs with h1 h2
  · simp
  · simp
  · have hlen : ((l.reverse.takeWhile (fun c => c != '.')).length ≠ l.reverse.length) := by
      simpa using h1
    obtain ⟨c, hc, heq⟩ := takeWhile_split (fun c => c != '.') l.reverse hlen
    have hcdot : c = '.' := by simpa using hc
    subst hcdot
    conv_rhs => rw [← List.reverse_reverse l, heq]
    simp [List.reverse_append]

/-- Counterexample to C7 as stated: the 92-character name `"a."` followed
by 90 `'b'`s survives filtering, exceeds 80 characters, and sanitizes to a
95-character result — `os.path.splitext` treats everything after the first
dot as the extension, which the truncation keeps whole, so the 80-character
limit is not enforced. -/
theorem sanitize_filename_cex :
    80 < (String.mk ('a' :: '.' :: List.replicate 90 'b')).length ∧
    ¬ ((sanitize_filename (String.mk ('a' :: '.' :: List.replicate 90 'b'))).length ≤ 80) := by
  constructor
  · show 80 < ('a' :: '.' :: List.replicate 90 'b').length
    rw [List.length_cons, List.length_cons, List.length_replicate]
    omega
  · decide

/-- C7 (amended): a 95-character filtered name with extension `.mp4`
sanitizes to exactly 77 characters; for any name whose filtered form
exceeds 80 characters, the result length is at most 73 plus the length of
the `splitext` extension — hence at most 80 whenever the extension has at
most 7 characters (but unbounded for longer extensions, see
`sanitize_filename_cex`); and sanitization never returns an empty name. -/
theorem sanitize_filename_spec :
    (∀ s : String, s ≠ "" → filter_and_strip s.toList = s.toList →
      s.toList.length = 95 → (splitext s.toList).2 = ".mp4".toList →
      (sanitize_filename s).length = 77) ∧
    (∀ s : String, 80 < (filter_and_strip s.toList).length →
      (sanitize_filename s).length ≤
        73 + (splitext (filter_and_strip s.toList)).2.length) ∧
    (∀ s : String, 80 < (filter_and_strip s.toList).length →
      (splitext (filter_and_strip s.toList)).2.length ≤ 7 →
      (sanitize_filename s).length ≤ 80) ∧
    (∀ s : String, sanitize_filename s ≠ "") := by
  have hb : ∀ s : String, 80 < (filter_and_strip s.toList).length →
      (sanitize_filename s).length ≤
        73 + (splitext (filter_and_strip s.toList)).2.length := by
    intro s hlong
    have hne : s ≠ "" := by
      intro h0
      rw [h0] at hlong
      exact absurd hlong (by decide)
    simp only [sanitize_filename]
    rw [if_neg hne, if_pos hlong]
    have hXne :
        (splitext (filter_and_strip s.toList)).1.take 70 ++ ['.', '.', '.'] ++
          (splitext (filter_and_strip s.toList)).2 ≠ [] := by
      intro h0
      have hlen0 := congrArg List.length h0
      simp only [List.length_append, List.length_take, List.length_cons,
        List.length_nil] at hlen0
      omega
    rw [if_neg hXne]
    show ((splitext (filter_and_strip s.toList)).1.take 70 ++ ['.', '.', '.'] ++
      (splitext (filter_and_strip s.toList)).2).length ≤ _
    simp only [List.length_append, List.length_take, List.length_cons, List.length_nil]
    omega
  refine ⟨?_, hb, ?_, ?_⟩
  · intro s hne hfix hlen hext
    simp only [sanitize_filename]
    rw [if_neg hne, hfix]
    rw [if_pos (show 80 < s.toList.length by rw [hlen]; omega)]
    have hstem : (splitext s.toList).1.length = 91 := by
      have happ := congrArg List.length (splitext_append s.toList)
      rw [List.length_append, hlen, hext] at happ
      simpa using happ
    have hXlen :
        ((splitext s.toList).1.take 70 ++ ['.', '.', '.'] ++
          (splitext s.toList).2).length = 77 := by
      rw [hext]
      simp only [List.length_append, List.length_take, hstem]
      decide
    have hXne :
        (splitext s.toList).1.take 70 ++ ['.', '.', '.'] ++ (splitext s.toList).2 ≠ [] := by
      intro h0
      rw [h0] at hXlen
      simp at hXlen
    rw [if_neg hXne]
    show ((splitext s.toList).1.take 70 ++ ['.', '.', '.'] ++
      (splitext s.toList).2).length = 77
    exact hXlen
  · intro s h1 h2
    exact le_trans (hb s h1) (by omega)
  · intro s
    simp only [sanitize_filename]
    split_ifs with h1 h2 h3 h4
    · decide
    · decide
    · intro heq
      exact h3 (congrArg String.data heq)
    · decide
    · intro heq
      exact h4 (congrArg String.data heq)

/-- Witness for `sanitize_filename_spec`: a concrete 95-character `.mp4`
name sanitizes to 77 characters. -/
theorem sanitize_filename_spec_witness :
    String.mk (List.replicate 91 'x' ++ ['.', 'm', 'p', '4']) ≠ "" ∧
    filter_and_strip (String.mk (List.replicate 91 'x' ++ ['.', 'm', 'p', '4'])).toList =
      (String.mk (List.replicate 91 'x' ++ ['.', 'm', 'p', '4'])).toList ∧
    (String.mk (List.replicate 91 'x' ++ ['.', 'm', 'p', '4'])).toList.length = 95 ∧
    (splitext (String.mk (List.replicate 91 'x' ++ ['.', 'm', 'p', '4'])).toList).2 =
      ".mp4".toList ∧
    (sanitize_filename (String.mk (List.replicate 91 'x' ++ ['.', 'm', 'p', '4']))).length =
      77 :=
  ⟨by decide, by decide, by decide, by decide,
    sanitize_filename_spec.1 (String.mk (List.replicate 91 'x' ++ ['.', 'm', 'p', '4']))
      (by decide) (by decide) (by decide) (by decide)⟩

end Dw
